import Mathlib

/-!
Shallow embedding of the werf stage storage manager (package manager) and of the
helm maintenance helper (pkg/deploy/helm/maintenance_helper), together with
proofs about the embedded operations.

Go values are modelled as follows: strings are Lean String (character lists
underneath), int64 is Int, pointers that may be nil are Option, a Go
(value, error) return is Except GoErr value or Option GoErr for error-only
returns, and the mutable backends (storage tiers, manifest cache, container
runtime, lock manager) are records of response functions supplied as
environment, with the side effects the manager performs on them recorded in an
explicit effect log that the embedded functions thread through.
-/

/-- Model of a Go error value. Go compares the sentinel errors of the manager
package by identity, so each sentinel is its own constructor; an error built
by fmt.Errorf wrapping another error is the wrap constructor holding the
message text placed in front of the inner error; any other backend error is mk
of its message. -/
inductive GoErr where
  | errShouldReset
  | errStageNotFound
  | errBrokenImage
  | wrap (pre : String) (e : GoErr)
  | mk (msg : String)
deriving DecidableEq, Repr

/-- The string representation of an error, as returned by the Go method
Error(). The sentinel texts are the ones declared in the manager package
(errors.New) and in the storage package for the broken image sentinel. -/
def GoErr.str : GoErr → String
  | .errShouldReset => "should reset storage cache"
  | .errStageNotFound => "stage not found"
  | .errBrokenImage => "broken image"
  | .wrap pre e => pre ++ e.str
  | .mk msg => msg

/-- Model of Go strings.HasSuffix on the character lists of the two strings. -/
def goHasSuffix (s suffix : String) : Bool :=
  List.isSuffixOf suffix.data s.data

/-- Embedding of manager.IsStageNotFound: nil errors are rejected, non-nil
errors are tested by suffix match against the stage not found sentinel text. -/
def IsStageNotFound : Option GoErr → Bool
  | some e => goHasSuffix e.str GoErr.errStageNotFound.str
  | none => false

/-- Embedding of manager.ShouldResetStagesStorageCache: nil errors are
rejected, non-nil errors are tested by suffix match against the reset sentinel
text. -/
def ShouldResetStagesStorageCache : Option GoErr → Bool
  | some e => goHasSuffix e.str GoErr.errShouldReset.str
  | none => false

/-- Embedding of image.StageID: a digest string plus an int64 unique id. -/
structure StageID where
  Digest : String
  UniqueID : Int
deriving DecidableEq, Repr

/-- Modelled from the spec: equality of stage ids is pairwise equality of the
digest and the unique id (image.StageID.IsEqual lives in the image package,
outside the given sources; section 3 of the spec states the equality is
pairwise). -/
def StageID.IsEqual (a b : StageID) : Bool :=
  a.Digest == b.Digest && a.UniqueID == b.UniqueID

/-- Embedding of image.Info, with exactly the fields the manager package
reads or writes (the full list appears in
convertStageDescriptionForStagesStorage). Labels is the Go string map as an
association list. -/
structure Info where
  Name : String
  Repository : String
  Tag : String
  RepoDigest : String
  ID : String
  ParentID : String
  Labels : List (String × String)
  Size : Int
  CreatedAtUnixNano : Int
deriving DecidableEq, Repr

/-- Embedding of image.StageDescription. -/
structure StageDescription where
  StageID : StageID
  Info : Info
deriving DecidableEq, Repr

/-- A storage tier (storage.StagesStorage contract) as a record of response
functions. Address and str model the Address() and String() methods; the
remaining fields model the backend calls the manager performs, keyed the way
the Go calls pass their arguments. The image name construction is the
abstract naming scheme of the tier. -/
structure StagesStorage where
  Address : String
  str : String
  ConstructStageImageName : String → String → Int → String
  GetStageDescription : String → String → Int → Except GoErr (Option StageDescription)
  RejectStageErr : String → String → Int → Option GoErr
  ShouldFetchImage : String → Except GoErr Bool
  FetchImageErr : String → Option GoErr
  StoreImageErr : String → Option GoErr
  GetStagesIDs : String → Except GoErr (List StageID)
  GetStagesIDsByDigest : String → String → Except GoErr (List StageID)

/-- The process local manifest cache (image.CommonManifestCache) as a record
of response functions: lookups are keyed by the storage String() and the image
name, stores receive the storage String() and the Info being stored and may
fail. -/
structure ManifestCache where
  GetImageInfo : String → String → Except GoErr (Option Info)
  StoreImageInfoErr : String → Info → Option GoErr

/-- The container runtime and the remaining process wide collaborators of the
manager (LRU image cache, host lock manager, per digest stage cache lock,
stages storage cache writes), each as a response function. -/
structure WorldEnv where
  mc : ManifestCache
  RenameImageErr : String → String → Option GoErr
  RefreshImageObjectErr : String → Option GoErr
  AccessImageErr : String → Option GoErr
  AcquireHostLockErr : String → Option GoErr
  LockStageCacheErr : String → Option GoErr
  StoreStagesByDigestErr : String → List StageID → Option GoErr

/-- The log of side effects the manager performs on its collaborators during
one operation: stage rejections (storage String(), stage id), manifest cache
stores (storage String(), stored Info), image stores into a tier
(storage String(), stage id), image renames (from, to), acquired host locks,
locked digests, and stages storage cache writes (digest, stored ids). -/
structure Effects where
  rejects : List (String × StageID)
  manifestStores : List (String × Info)
  imageStores : List (String × StageID)
  renames : List (String × String)
  locks : List String
  digestLocks : List String
  cacheWrites : List (String × List StageID)
deriving DecidableEq, Repr

/-- The empty effect log. -/
def Effects.empty : Effects :=
  ⟨[], [], [], [], [], [], []⟩

/-- Embedding of manager.convertStageDescriptionForStagesStorage: rebuild the
description with a copied stage id and an Info whose Name is
Sprintf of address, digest and unique id and whose Repository is the tier
address, every other field passed through. -/
def convertStageDescriptionForStagesStorage (stageDesc : StageDescription) (stagesStorage : StagesStorage) : StageDescription :=
  { StageID := { Digest := stageDesc.StageID.Digest, UniqueID := stageDesc.StageID.UniqueID }
    Info := { Name := stagesStorage.Address ++ ":" ++ stageDesc.StageID.Digest ++ "-" ++ toString stageDesc.StageID.UniqueID
              Repository := stagesStorage.Address
              Tag := stageDesc.Info.Tag
              RepoDigest := stageDesc.Info.RepoDigest
              ID := stageDesc.Info.ID
              ParentID := stageDesc.Info.ParentID
              Labels := stageDesc.Info.Labels
              Size := stageDesc.Info.Size
              CreatedAtUnixNano := stageDesc.Info.CreatedAtUnixNano } }

/-- Alias for the tier record, needed because the manager field named
StagesStorage shadows the record name inside the structure declaration. -/
abbrev Tier := StagesStorage

/-- The manager configuration carried by a StorageManager value: project name,
primary tier, final tier and the cache tier list. -/
structure StorageManager where
  ProjectName : String
  StagesStorage : Tier
  FinalStagesStorage : Tier
  CacheStagesStorageList : List Tier

/-- Modelled from the spec: the address constant of the local docker server
storage (storage.LocalStorageAddress, outside the given sources); only its
inequality with other addresses matters, through
getWithLocalManifestCacheOption. -/
def LocalStorageAddress : String := ":local"

/-- Embedding of StorageManager.getWithLocalManifestCacheOption: the manifest
cache is used unless the primary tier is the local storage. -/
def StorageManager.getWithLocalManifestCacheOption (m : StorageManager) : Bool :=
  m.StagesStorage.Address != LocalStorageAddress

/-- Concatenation of two effect logs, used to sequence the effects of two
consecutive steps of an operation. -/
def Effects.append (a b : Effects) : Effects :=
  ⟨a.rejects ++ b.rejects, a.manifestStores ++ b.manifestStores,
   a.imageStores ++ b.imageStores, a.renames ++ b.renames, a.locks ++ b.locks,
   a.digestLocks ++ b.digestLocks, a.cacheWrites ++ b.cacheWrites⟩

/-- The presentation of a stage id used inside log and error messages
(image.StageID.String renders digest dash unique id). -/
def StageID.str (s : StageID) : String :=
  s.Digest ++ "-" ++ toString s.UniqueID

/-- Embedding of manager.getStageDescriptionOptions. -/
structure getStageDescriptionOptions where
  AllowStagesStorageCacheReset : Bool
  WithLocalManifestCache : Bool
deriving DecidableEq, Repr

/-- Embedding of manager.getStageDescriptionFromLocalManifestCache: look the
tier qualified image name up in the manifest cache; on a hit synthesize a
description from the cached info and the requested stage id. -/
def getStageDescriptionFromLocalManifestCache (mc : ManifestCache) (projectName : String)
    (stageID : StageID) (stagesStorage : Tier) : Except GoErr (Option StageDescription) :=
  let stageImageName := stagesStorage.ConstructStageImageName projectName stageID.Digest stageID.UniqueID
  match mc.GetImageInfo stagesStorage.str stageImageName with
  | .error e => .error (.wrap ("error getting image " ++ stageImageName ++ " info: ") e)
  | .ok (some imgInfo) =>
      .ok (some { StageID := { Digest := stageID.Digest, UniqueID := stageID.UniqueID }
                  Info := imgInfo })
  | .ok none => .ok none

/-- Embedding of manager.storeStageDescriptionIntoLocalManifestCache: store
the given description Info into the manifest cache under the tier String()
and report the store in the effect log. -/
def storeStageDescriptionIntoLocalManifestCache (mc : ManifestCache) (projectName : String)
    (stageID : StageID) (stagesStorage : Tier) (stageDesc : StageDescription) :
    Option GoErr × Effects :=
  let stageImageName := stagesStorage.ConstructStageImageName projectName stageID.Digest stageID.UniqueID
  match mc.StoreImageInfoErr stagesStorage.str stageDesc.Info with
  | some e => (some (.wrap ("error storing image " ++ stageImageName ++ " info: ") e), Effects.empty)
  | none => (none, { Effects.empty with manifestStores := [(stagesStorage.str, stageDesc.Info)] })

/-- Outcome of the body of the cache tier loop inside getStageDescription:
either an early return from the whole resolver or a continue to the next
cache tier, with the effects this iteration performed. -/
inductive CacheTierStep where
  | ret (r : Except GoErr (Option StageDescription)) (eff : Effects)
  | cont (eff : Effects)

/-- One iteration of the cache tier loop of manager.getStageDescription: probe
the manifest cache for the cache tier when enabled (errors abort, hits return
the description rebranded to the target tier), otherwise ask the cache tier
for the description (errors are logged and continue the loop; a hit is
optionally stored into the manifest cache and returned rebranded to the
target tier; an absent description continues the loop). -/
def getStageDescriptionCacheTierStep (mc : ManifestCache) (projectName : String)
    (stageID : StageID) (stagesStorage : Tier) (opts : getStageDescriptionOptions)
    (cacheStagesStorage : Tier) : CacheTierStep :=
  let probe : CacheTierStep :=
    match cacheStagesStorage.GetStageDescription projectName stageID.Digest stageID.UniqueID with
    | .error _ => .cont Effects.empty
    | .ok (some stageDesc) =>
        if opts.WithLocalManifestCache then
          match storeStageDescriptionIntoLocalManifestCache mc projectName stageID cacheStagesStorage stageDesc with
          | (some e, eff) =>
              .ret (.error (.wrap ("error storing stage " ++ stageID.str ++ " description into local manifest cache: ") e)) eff
          | (none, eff) =>
              .ret (.ok (some (convertStageDescriptionForStagesStorage stageDesc stagesStorage))) eff
        else .ret (.ok (some (convertStageDescriptionForStagesStorage stageDesc stagesStorage))) Effects.empty
    | .ok none => .cont Effects.empty
  if opts.WithLocalManifestCache then
    match getStageDescriptionFromLocalManifestCache mc projectName stageID cacheStagesStorage with
    | .error e =>
        .ret (.error (.wrap ("error getting stage " ++ stageID.str ++ " description from the local manifest cache: ") e)) Effects.empty
    | .ok (some stageDesc) =>
        .ret (.ok (some (convertStageDescriptionForStagesStorage stageDesc stagesStorage))) Effects.empty
    | .ok none => probe
  else probe

/-- The cache tier loop of manager.getStageDescription: run the per tier body
over the list; inl is an early return, inr means every cache tier missed and
the resolver falls through to the target tier. -/
def getStageDescriptionCacheTiers (mc : ManifestCache) (projectName : String)
    (stageID : StageID) (stagesStorage : Tier) (opts : getStageDescriptionOptions) :
    List Tier → (Except GoErr (Option StageDescription) × Effects) ⊕ Effects
  | [] => Sum.inr Effects.empty
  | cacheStagesStorage :: rest =>
    match getStageDescriptionCacheTierStep mc projectName stageID stagesStorage opts cacheStagesStorage with
    | .ret r eff => Sum.inl (r, eff)
    | .cont eff =>
      match getStageDescriptionCacheTiers mc projectName stageID stagesStorage opts rest with
      | Sum.inl (r, eff2) => Sum.inl (r, eff.append eff2)
      | Sum.inr eff2 => Sum.inr (eff.append eff2)

/-- The final part of manager.getStageDescription: ask the target tier itself.
A broken image error with the reset option rejects the stage on the tier and
returns the reset sentinel (a failing rejection propagates the rejection
error); a broken image without the option is absent; any other error is
fatal; a hit is optionally stored into the manifest cache and returned; an
absent description is the reset sentinel with the option and absent without. -/
def getStageDescriptionTargetTier (mc : ManifestCache) (projectName : String)
    (stageID : StageID) (stagesStorage : Tier) (opts : getStageDescriptionOptions) :
    Except GoErr (Option StageDescription) × Effects :=
  match stagesStorage.GetStageDescription projectName stageID.Digest stageID.UniqueID with
  | .error .errBrokenImage =>
    if opts.AllowStagesStorageCacheReset then
      let eff := { Effects.empty with rejects := [(stagesStorage.str, stageID)] }
      match stagesStorage.RejectStageErr projectName stageID.Digest stageID.UniqueID with
      | some e =>
          (.error (.wrap ("unable to reject stage " ++ stageID.str ++ " in the stages storage " ++ stagesStorage.str ++ ": ") e), eff)
      | none => (.error .errShouldReset, eff)
    else (.ok none, Effects.empty)
  | .error e =>
      (.error (.wrap ("error getting digest " ++ stageID.Digest ++ " stage info from " ++ stagesStorage.str ++ ": ") e), Effects.empty)
  | .ok (some stageDesc) =>
    if opts.WithLocalManifestCache then
      match storeStageDescriptionIntoLocalManifestCache mc projectName stageID stagesStorage stageDesc with
      | (some e, eff) =>
          (.error (.wrap ("error storing stage " ++ stageID.str ++ " description into local manifest cache: ") e), eff)
      | (none, eff) => (.ok (some stageDesc), eff)
    else (.ok (some stageDesc), Effects.empty)
  | .ok none =>
    if opts.AllowStagesStorageCacheReset then (.error .errShouldReset, Effects.empty)
    else (.ok none, Effects.empty)

/-- Embedding of manager.getStageDescription: optional manifest cache lookup
against the target tier, then the cache tier loop, then the target tier
itself. -/
def getStageDescription (mc : ManifestCache) (projectName : String) (stageID : StageID)
    (stagesStorage : Tier) (cacheStagesStorageList : List Tier)
    (opts : getStageDescriptionOptions) : Except GoErr (Option StageDescription) × Effects :=
  let afterManifestCache : Except GoErr (Option StageDescription) × Effects :=
    match getStageDescriptionCacheTiers mc projectName stageID stagesStorage opts cacheStagesStorageList with
    | Sum.inl r => r
    | Sum.inr eff =>
      let (r, eff2) := getStageDescriptionTargetTier mc projectName stageID stagesStorage opts
      (r, eff.append eff2)
  if opts.WithLocalManifestCache then
    match getStageDescriptionFromLocalManifestCache mc projectName stageID stagesStorage with
    | .error e =>
        (.error (.wrap ("error getting stage " ++ stageID.str ++ " description from " ++ stagesStorage.str ++ ": ") e), Effects.empty)
    | .ok (some stageDesc) => (.ok (some stageDesc), Effects.empty)
    | .ok none => afterManifestCache
  else afterManifestCache

/-- Embedding of StorageManager.getStagesIDsByDigestFromStagesStorage: list
the stage ids of the digest from the given tier, wrapping a backend error. -/
def getStagesIDsByDigestFromStagesStorage (m : StorageManager) (stageDigest : String)
    (stagesStorage : Tier) : Except GoErr (List StageID) :=
  match stagesStorage.GetStagesIDsByDigest m.ProjectName stageDigest with
  | .error e =>
      .error (.wrap ("error getting project " ++ m.ProjectName ++ " stage " ++ stageDigest ++ " images from storage: ") e)
  | .ok stageIDs => .ok stageIDs

/-- Embedding of StorageManager.getStagesDescriptions: resolve each stage id
through getStageDescription with the reset option disabled; an error aborts,
an absent description is skipped with a warning, a resolved description is
collected. -/
def getStagesDescriptions (mc : ManifestCache) (m : StorageManager) (stagesStorage : Tier)
    (cacheStagesStorageList : List Tier) :
    List StageID → Except GoErr (List StageDescription) × Effects
  | [] => (.ok [], Effects.empty)
  | stageID :: rest =>
    match getStageDescription mc m.ProjectName stageID stagesStorage cacheStagesStorageList
        { AllowStagesStorageCacheReset := false, WithLocalManifestCache := m.getWithLocalManifestCacheOption } with
    | (.error e, eff) => (.error e, eff)
    | (.ok none, eff) =>
      let (r, eff2) := getStagesDescriptions mc m stagesStorage cacheStagesStorageList rest
      (r, eff.append eff2)
    | (.ok (some stageDesc), eff) =>
      match getStagesDescriptions mc m stagesStorage cacheStagesStorageList rest with
      | (.error e, eff2) => (.error e, eff.append eff2)
      | (.ok stages, eff2) => (.ok (stageDesc :: stages), eff.append eff2)

/-- Embedding of
StorageManager.atomicGetStagesByDigestWithStagesStorageCacheStore: under the
per digest lock, list the stage ids of the digest from the primary tier,
resolve them, store the stage ids of the successfully resolved descriptions
into the stages storage cache, and return the resolved descriptions. -/
def atomicGetStagesByDigestWithStagesStorageCacheStore (env : WorldEnv) (m : StorageManager)
    (stageName stageDigest : String) : Except GoErr (List StageDescription) × Effects :=
  match env.LockStageCacheErr stageDigest with
  | some e =>
      (.error (.wrap ("error locking project " ++ m.ProjectName ++ " stage " ++ stageDigest ++ " cache: ") e), Effects.empty)
  | none =>
    let eff0 : Effects := { Effects.empty with digestLocks := [stageDigest] }
    match getStagesIDsByDigestFromStagesStorage m stageDigest m.StagesStorage with
    | .error e =>
        (.error (.wrap ("unable to get stages ids from " ++ m.StagesStorage.str ++ " by digest " ++ stageDigest ++ " for stage " ++ stageName ++ ": ") e), eff0)
    | .ok stageIDs =>
      match getStagesDescriptions env.mc m m.StagesStorage m.CacheStagesStorageList stageIDs with
      | (.error e, eff1) =>
          (.error (.wrap ("unable to get stage descriptions by ids from " ++ m.StagesStorage.str ++ ": ") e), eff0.append eff1)
      | (.ok validStages, eff1) =>
        let validStageIDs := validStages.map (fun stage => stage.StageID)
        match env.StoreStagesByDigestErr stageDigest validStageIDs with
        | some e =>
            (.error (.wrap ("error storing stage " ++ stageName ++ " images by digest " ++ stageDigest ++ " into storage cache: ") e), eff0.append eff1)
        | none =>
            (.ok validStages,
             (eff0.append eff1).append { Effects.empty with cacheWrites := [(stageDigest, validStageIDs)] })

/-- The inputs of a fetch: the logical stage as the manager sees it, namely
the name of its image and the description attached to that image. -/
structure StageInput where
  imageName : String
  desc : StageDescription
deriving DecidableEq, Repr

/-- Embedding of manager.doFetchStage: read the fresh description from the
tier (an absent description is the exact stage not found sentinel, a backend
error is wrapped), set it on the image, then fetch the image bytes. The
returned description models the description set on the passed image. -/
def doFetchStage (projectName : String) (stagesStorage : Tier) (stageID : StageID)
    (imageName : String) : Except GoErr StageDescription :=
  match stagesStorage.GetStageDescription projectName stageID.Digest stageID.UniqueID with
  | .error e => .error (.wrap "unable to get stage description: " e)
  | .ok none => .error .errStageNotFound
  | .ok (some freshStageDescription) =>
    match stagesStorage.FetchImageErr imageName with
    | some e =>
        .error (.wrap ("unable to fetch stage " ++ stageID.str ++ " image " ++ imageName ++ ": ") e)
    | none => .ok freshStageDescription

/-- Embedding of the fetchStageFromCache closure of StorageManager.FetchStage:
construct the cache tier image name, probe whether a fetch is needed; when it
is, run doFetchStage against the cache tier, store the fresh description into
the manifest cache and touch the LRU tracker; when the image is already
local, only touch the LRU tracker. The returned pair is the cache image name
and the description set on the cache image (none when no fetch happened). -/
def fetchStageFromCache (env : WorldEnv) (projectName : String) (stageID : StageID)
    (stagesStorage : Tier) : Except GoErr (String × Option StageDescription) × Effects :=
  let imageName := stagesStorage.ConstructStageImageName projectName stageID.Digest stageID.UniqueID
  match stagesStorage.ShouldFetchImage imageName with
  | .error e =>
      (.error (.wrap ("error checking should fetch image from cache repo " ++ stagesStorage.str ++ ": ") e), Effects.empty)
  | .ok true =>
    match doFetchStage projectName stagesStorage stageID imageName with
    | .error e => (.error e, Effects.empty)
    | .ok fresh =>
      match storeStageDescriptionIntoLocalManifestCache env.mc projectName stageID stagesStorage fresh with
      | (some e, eff) =>
          (.error (.wrap ("error storing stage " ++ imageName ++ " description into local manifest cache: ") e), eff)
      | (none, eff) =>
        match env.AccessImageErr imageName with
        | some e =>
            (.error (.wrap ("error accessing last recently used images cache for " ++ imageName ++ ": ") e), eff)
        | none => (.ok (imageName, some fresh), eff)
  | .ok false =>
    match env.AccessImageErr imageName with
    | some e =>
        (.error (.wrap ("error accessing last recently used images cache for " ++ imageName ++ ": ") e), Effects.empty)
    | none => (.ok (imageName, none), Effects.empty)

/-- Embedding of the prepareCacheStageAsPrimary closure of
StorageManager.FetchStage: rename the cache fetched image to the primary
name, refresh the runtime object of the primary stage image, store the
rebranded description into the manifest cache under the primary tier and
touch the LRU tracker. A cache image without a description would be a nil
dereference in the Go code; it is modelled as an error. -/
def prepareCacheStageAsPrimary (env : WorldEnv) (m : StorageManager) (cacheImageName : String)
    (cacheDesc : Option StageDescription) (stg : StageInput) : Option GoErr × Effects :=
  let stageID := stg.desc.StageID
  let primaryImageName := m.StagesStorage.ConstructStageImageName m.ProjectName stageID.Digest stageID.UniqueID
  match env.RenameImageErr cacheImageName primaryImageName with
  | some e =>
      (some (.wrap ("unable to rename image " ++ cacheImageName ++ " to " ++ primaryImageName ++ ": ") e), Effects.empty)
  | none =>
    let eff1 : Effects := { Effects.empty with renames := [(cacheImageName, primaryImageName)] }
    match env.RefreshImageObjectErr stg.imageName with
    | some e => (some (.wrap ("unable to refresh stage image " ++ stg.imageName ++ ": ") e), eff1)
    | none =>
      match cacheDesc with
      | none => (some (.mk "panic: nil stage description"), eff1)
      | some d =>
        match storeStageDescriptionIntoLocalManifestCache env.mc m.ProjectName stageID m.StagesStorage
            (convertStageDescriptionForStagesStorage d m.StagesStorage) with
        | (some e, eff2) =>
            (some (.wrap ("error storing stage " ++ primaryImageName ++ " description into local manifest cache: ") e), eff1.append eff2)
        | (none, eff2) =>
          match env.AccessImageErr primaryImageName with
          | some e =>
              (some (.wrap ("error accessing last recently used images cache for " ++ primaryImageName ++ ": ") e), eff1.append eff2)
          | none => (none, eff1.append eff2)

/-- The cache tier loop of StorageManager.FetchStage: try each cache tier in
order; a tier whose fetch or preparation fails is appended to the refill
list and the loop continues; the first tier whose image is prepared as
primary ends the loop. The fetched image is returned with the primary image
name it carries after the rename done by the preparation. -/
def fetchStageCacheLoop (env : WorldEnv) (m : StorageManager) (stg : StageInput) :
    List Tier → Option (String × Option StageDescription) × List Tier × Effects
  | [] => (none, [], Effects.empty)
  | cacheStagesStorage :: rest =>
    match fetchStageFromCache env m.ProjectName stg.desc.StageID cacheStagesStorage with
    | (.error _, eff) =>
      let (r, refill, eff2) := fetchStageCacheLoop env m stg rest
      (r, cacheStagesStorage :: refill, eff.append eff2)
    | (.ok cacheImg, eff) =>
      match prepareCacheStageAsPrimary env m cacheImg.1 cacheImg.2 stg with
      | (some _, eff1) =>
        let (r, refill, eff2) := fetchStageCacheLoop env m stg rest
        (r, cacheStagesStorage :: refill, (eff.append eff1).append eff2)
      | (none, eff1) =>
        let primaryImageName := m.StagesStorage.ConstructStageImageName m.ProjectName stg.desc.StageID.Digest stg.desc.StageID.UniqueID
        (some (primaryImageName, cacheImg.2), [], eff.append eff1)

/-- Embedding of manager.copyStageIntoStagesStorage: rename the local image to
the target tier name, store it into the tier, store the rebranded description
into the manifest cache and touch the LRU tracker. Returns the error, the
image name after the call (the rename mutates the image name), and the
effects. A missing description would be a nil dereference in Go, modelled as
an error. -/
def copyStageIntoStagesStorage (env : WorldEnv) (projectName : String) (stageID : StageID)
    (imageName : String) (desc : Option StageDescription) (stagesStorage : Tier) :
    Option GoErr × String × Effects :=
  let targetStagesStorageImageName := stagesStorage.ConstructStageImageName projectName stageID.Digest stageID.UniqueID
  match env.RenameImageErr imageName targetStagesStorageImageName with
  | some e =>
      (some (.wrap ("unable to rename image " ++ imageName ++ " to " ++ targetStagesStorageImageName ++ ": ") e), imageName, Effects.empty)
  | none =>
    let eff1 : Effects := { Effects.empty with renames := [(imageName, targetStagesStorageImageName)] }
    match stagesStorage.StoreImageErr targetStagesStorageImageName with
    | some e =>
        (some (.wrap ("unable to store stage " ++ stageID.str ++ " into the cache stages storage " ++ stagesStorage.str ++ ": ") e), targetStagesStorageImageName, eff1)
    | none =>
      let eff2 : Effects := eff1.append { Effects.empty with imageStores := [(stagesStorage.str, stageID)] }
      match desc with
      | none => (some (.mk "panic: nil stage description"), targetStagesStorageImageName, eff2)
      | some d =>
        match storeStageDescriptionIntoLocalManifestCache env.mc projectName stageID stagesStorage
            (convertStageDescriptionForStagesStorage d stagesStorage) with
        | (some e, eff3) =>
            (some (.wrap ("error storing stage " ++ targetStagesStorageImageName ++ " description into local manifest cache: ") e), targetStagesStorageImageName, eff2.append eff3)
        | (none, eff3) =>
          match env.AccessImageErr targetStagesStorageImageName with
          | some e =>
              (some (.wrap ("error accessing last recently used images cache for " ++ targetStagesStorageImageName ++ ": ") e), targetStagesStorageImageName, eff2.append eff3)
          | none => (none, targetStagesStorageImageName, eff2.append eff3)

/-- The refill loop at the end of StorageManager.FetchStage: copy the now
local image into every cache tier that was tried and failed, in order; copy
failures are warnings and never abort; the image name is threaded through
because each copy renames the image. -/
def fetchStageRefillLoop (env : WorldEnv) (projectName : String) (stageID : StageID) :
    List Tier → String → Option StageDescription → String × Effects
  | [], imageName, _ => (imageName, Effects.empty)
  | cacheStagesStorage :: rest, imageName, desc =>
    let (_, imageName2, eff) := copyStageIntoStagesStorage env projectName stageID imageName desc cacheStagesStorage
    let (imageName3, eff2) := fetchStageRefillLoop env projectName stageID rest imageName2 desc
    (imageName3, eff.append eff2)

/-- Embedding of StorageManager.FetchStage: acquire the shared host lock on
the stage image name, probe whether the primary image must be fetched (when
not, touch the LRU tracker and succeed), otherwise try the cache tiers; when
none satisfied the request, fetch from the primary tier, translating the
exact stage not found sentinel into the reset sentinel and an exact broken
image sentinel into a rejection plus the reset sentinel; finally refill the
failed cache tiers. The returned StageInput models the stage image after the
call (doFetchStage against the primary tier sets a fresh description). -/
def FetchStage (env : WorldEnv) (m : StorageManager) (stg : StageInput) :
    Except GoErr StageInput × Effects :=
  match env.AcquireHostLockErr stg.imageName with
  | some e =>
      (.error (.wrap ("error locking stage image " ++ stg.imageName ++ ": ")
        (.wrap ("error locking " ++ stg.imageName ++ " shared lock: ") e)), Effects.empty)
  | none =>
    let eff0 : Effects := { Effects.empty with locks := [stg.imageName] }
    match m.StagesStorage.ShouldFetchImage stg.imageName with
    | .error e => (.error (.wrap "error checking should fetch image: " e), eff0)
    | .ok false =>
      let imageName := m.StagesStorage.ConstructStageImageName m.ProjectName stg.desc.StageID.Digest stg.desc.StageID.UniqueID
      match env.AccessImageErr imageName with
      | some e =>
          (.error (.wrap ("error accessing last recently used images cache for " ++ imageName ++ ": ") e), eff0)
      | none => (.ok stg, eff0)
    | .ok true =>
      match fetchStageCacheLoop env m stg m.CacheStagesStorageList with
      | (some fetchedImg, refill, eff1) =>
        let (_, eff2) := fetchStageRefillLoop env m.ProjectName stg.desc.StageID refill fetchedImg.1 fetchedImg.2
        (.ok stg, (eff0.append eff1).append eff2)
      | (none, refill, eff1) =>
        let stageID := stg.desc.StageID
        match doFetchStage m.ProjectName m.StagesStorage stageID stg.imageName with
        | .error e =>
          if e = GoErr.errStageNotFound then
            (.error .errShouldReset, eff0.append eff1)
          else if e = GoErr.errBrokenImage then
            let eff2 := (eff0.append eff1).append { Effects.empty with rejects := [(m.StagesStorage.str, stageID)] }
            match m.StagesStorage.RejectStageErr m.ProjectName stageID.Digest stageID.UniqueID with
            | some re =>
                (.error (.wrap ("unable to reject stage " ++ stageID.str ++ " image " ++ stg.imageName ++ " in the stages storage " ++ m.StagesStorage.str ++ ": ") re), eff2)
            | none => (.error .errShouldReset, eff2)
          else
            (.error (.wrap ("unable to fetch stage " ++ stageID.str ++ " from stages storage " ++ m.StagesStorage.str ++ ": ") e), eff0.append eff1)
        | .ok fresh =>
          let stgAfter : StageInput := { imageName := stg.imageName, desc := fresh }
          let (_, eff2) := fetchStageRefillLoop env m.ProjectName stageID refill stg.imageName (some fresh)
          (.ok stgAfter, (eff0.append eff1).append eff2)

/-- The mutable in process state of the manager that the final tier claims
exercise: the lazily built final stages list cache. -/
structure ManagerState where
  FinalStagesListCache : Option (List StageID)
deriving DecidableEq, Repr

/-- Embedding of StagesList.AddStageID: append the stage id unless an equal
one is already present. -/
def AddStageID (stageIDs : List StageID) (stageID : StageID) : List StageID :=
  if stageIDs.any (fun stg => stg.IsEqual stageID) then stageIDs
  else stageIDs ++ [stageID]

/-- Embedding of StorageManager.getOrCreateFinalStagesListCache: return the
cached list when present, otherwise build it from the final tier stage id
listing and cache it. -/
def getOrCreateFinalStagesListCache (m : StorageManager) (st : ManagerState) :
    Except GoErr (List StageID) × ManagerState :=
  match st.FinalStagesListCache with
  | some stageIDs => (.ok stageIDs, st)
  | none =>
    match m.FinalStagesStorage.GetStagesIDs m.ProjectName with
    | .error e => (.error (.wrap "unable to get final repo stages list: " e), st)
    | .ok stageIDs => (.ok stageIDs, { FinalStagesListCache := some stageIDs })

/-- Embedding of StorageManager.CopyStageIntoFinalRepo: consult the final
stages list cache; when an equal stage id is present, emit the reuse log and
return without touching the backends; otherwise fetch the stage, copy it into
the final tier and append the stage id to the cached list. -/
def CopyStageIntoFinalRepo (env : WorldEnv) (m : StorageManager) (st : ManagerState)
    (stg : StageInput) : Except GoErr Unit × ManagerState × Effects :=
  match getOrCreateFinalStagesListCache m st with
  | (.error e, st1) =>
      (.error (.wrap ("error getting existing stages list of final repo " ++ m.FinalStagesStorage.str ++ ": ") e), st1, Effects.empty)
  | (.ok existingStagesList, st1) =>
    let stageID := stg.desc.StageID
    if existingStagesList.any (fun existingStg => existingStg.IsEqual stageID) then
      (.ok (), st1, Effects.empty)
    else
      match FetchStage env m stg with
      | (.error e, eff1) => (.error (.wrap "unable to fetch stage: " e), st1, eff1)
      | (.ok stgAfter, eff1) =>
        match copyStageIntoStagesStorage env m.ProjectName stageID stgAfter.imageName (some stgAfter.desc) m.FinalStagesStorage with
        | (some e, _, eff2) =>
            (.error (.wrap ("unable to copy stage " ++ stageID.str ++ " into the final repo " ++ m.FinalStagesStorage.str ++ ": ") e), st1, eff1.append eff2)
        | (none, _, eff2) =>
            (.ok (), { FinalStagesListCache := some (AddStageID existingStagesList stageID) }, eff1.append eff2)

/-- Embedding of StorageManager.SelectSuitableStage: an empty candidate list
returns absent immediately; otherwise the per stage policy is invoked once
and its answer (error, none or a description) is passed through. The second
component counts the policy invocations. -/
def SelectSuitableStage (policy : List StageDescription → Except GoErr (Option StageDescription))
    (stages : List StageDescription) : Except GoErr (Option StageDescription) × Nat :=
  if stages.length = 0 then (.ok none, 0)
  else
    match policy stages with
    | .error e => (.error e, 1)
    | .ok none => (.ok none, 1)
    | .ok (some stageDesc) => (.ok (some stageDesc), 1)

/-- The inner loop of StorageManager.GenerateStageUniqueID, exactly as
written: the continue statement inside it targets this inner loop itself, so
every iteration proceeds to the next candidate description and the loop has
no effect on the result. -/
def generateStageUniqueIDCandidateScan (stages : List StageDescription) (imageName : String) : Unit :=
  match stages with
  | [] => ()
  | stageDesc :: rest =>
    if stageDesc.Info.Name == imageName then generateStageUniqueIDCandidateScan rest imageName
    else generateStageUniqueIDCandidateScan rest imageName

/-- Embedding of StorageManager.GenerateStageUniqueID: the unique id is the
wall clock unix seconds times 1000 plus the millisecond part of the
nanoseconds, the image name is built by the primary tier naming scheme, the
candidate scan runs and the first candidate is returned (the outer Go loop
body ends in an unconditional return, so it runs exactly once). The wall
clock is passed in as the unix seconds and the nanosecond within the
second. -/
def GenerateStageUniqueID (m : StorageManager) (digest : String) (stages : List StageDescription)
    (nowUnix : Int) (nowNanosecond : Nat) : String × Int :=
  let uniqueID : Int := nowUnix * 1000 + Int.ofNat (nowNanosecond / 1000000)
  let imageName := m.StagesStorage.ConstructStageImageName m.ProjectName digest uniqueID
  let _ := generateStageUniqueIDCandidateScan stages imageName
  (imageName, uniqueID)

/-- A helm release record, with the fields the maintenance helper reads: the
release name and the revision number. -/
structure HelmRelease where
  Name : String
  Version : Int
deriving DecidableEq, Repr

/-- Model of the external helm 2 release storage the maintenance helper
talks to: the stored release records in storage order, plus an error flag
making every list operation fail when set (the storage backend is a
kubernetes client outside this repository). -/
structure Helm2Storage where
  records : List HelmRelease
  accessErr : Option GoErr

/-- Model of the helm 2 storage ListReleases call. -/
def Helm2Storage.ListReleases (s : Helm2Storage) : Except GoErr (List HelmRelease) :=
  match s.accessErr with
  | some e => .error e
  | none => .ok s.records

/-- Model of the helm 2 storage ListFilterAll call: the stored records that
satisfy the filter, in storage order. -/
def Helm2Storage.ListFilterAll (s : Helm2Storage) (p : HelmRelease → Bool) :
    Except GoErr (List HelmRelease) :=
  match s.accessErr with
  | some e => .error e
  | none => .ok (s.records.filter p)

/-- The labelled AppendUniqReleases loop shared by GetHelm2ReleasesList and
GetHelm3ReleasesList: walk the releases, skipping a release whose name is
already in the result and appending it otherwise. -/
def appendUniqReleases (res : List String) : List HelmRelease → List String
  | [] => res
  | rel :: rest =>
    if res.contains rel.Name then appendUniqReleases res rest
    else appendUniqReleases (res ++ [rel.Name]) rest

/-- Embedding of MaintenanceHelper.GetHelm2ReleasesList: list the stored
releases and deduplicate their names with the AppendUniqReleases loop. -/
def GetHelm2ReleasesList (s : Helm2Storage) : Except GoErr (List String) :=
  match s.ListReleases with
  | .error e => .error e
  | .ok releases => .ok (appendUniqReleases [] releases)

/-- Embedding of MaintenanceHelper.GetHelm3ReleasesList: the helm 3 release
listing is an external call modelled as its result; its names are
deduplicated with the same AppendUniqReleases loop. -/
def GetHelm3ReleasesList (listReleasesResult : Except GoErr (List HelmRelease)) :
    Except GoErr (List String) :=
  match listReleasesResult with
  | .error e => .error e
  | .ok releases => .ok (appendUniqReleases [] releases)

/-- Stated from the claim wording, for comparison with the source loop: keep
the first occurrence of every release name not yet seen, in order. -/
def dedupKeepFirst (seen : List String) : List HelmRelease → List String
  | [] => []
  | rel :: rest =>
    if seen.contains rel.Name then dedupKeepFirst seen rest
    else rel.Name :: dedupKeepFirst (seen ++ [rel.Name]) rest

/-- Model of helm releaseutil Reverse with SortByRevision (external library):
sort the releases by revision, largest revision first; implemented as an
insertion sort to keep it executable. -/
def insertByRevisionDesc (r : HelmRelease) : List HelmRelease → List HelmRelease
  | [] => [r]
  | x :: xs => if x.Version ≤ r.Version then r :: x :: xs else x :: insertByRevisionDesc r xs

/-- The insertion sort, descending by revision. -/
def sortByRevisionDesc : List HelmRelease → List HelmRelease
  | [] => []
  | r :: rs => insertByRevisionDesc r (sortByRevisionDesc rs)

/-- Embedding of MaintenanceHelper.GetHelm2ReleaseData: filter the stored
releases by name; no match is the release not found error; otherwise sort
the matches by revision, largest first, and return the first one. The inner
empty branch is unreachable because sorting preserves emptiness; it is kept
to make the function total by cases. -/
def GetHelm2ReleaseData (s : Helm2Storage) (releaseName : String) : Except GoErr HelmRelease :=
  match s.ListFilterAll (fun rel => rel.Name == releaseName) with
  | .error e => .error e
  | .ok releases =>
    if releases.length = 0 then .error (.mk "release not found")
    else
      match sortByRevisionDesc releases with
      | [] => .error (.mk "release not found")
      | r :: _ => .ok r

/-! ## Theorems -/

/-- C2: for every error, ShouldResetStagesStorageCache holds exactly when the
error is non nil and its string representation ends with the reset sentinel
text, IsStageNotFound holds exactly when the error is non nil and its string
representation ends with the stage not found sentinel text, and wrapping a
sentinel with any message placed in front still satisfies the predicate. -/
theorem shouldReset_and_stageNotFound_suffix_semantics (e : Option GoErr) :
    (ShouldResetStagesStorageCache e = true ↔
      ∃ g, e = some g ∧ GoErr.errShouldReset.str.data <:+ g.str.data) ∧
    (IsStageNotFound e = true ↔
      ∃ g, e = some g ∧ GoErr.errStageNotFound.str.data <:+ g.str.data) ∧
    (∀ pre : String,
      ShouldResetStagesStorageCache (some (.wrap pre .errShouldReset)) = true ∧
      IsStageNotFound (some (.wrap pre .errStageNotFound)) = true) := by
  refine ⟨?_, ?_, ?_⟩
  · cases e with
    | none => simp [ShouldResetStagesStorageCache]
    | some g =>
      simp [ShouldResetStagesStorageCache, goHasSuffix]
  · cases e with
    | none => simp [IsStageNotFound]
    | some g =>
      simp [IsStageNotFound, goHasSuffix]
  · intro pre
    constructor
    · simp [ShouldResetStagesStorageCache, goHasSuffix, GoErr.str]
    · simp [IsStageNotFound, goHasSuffix, GoErr.str]

/-- C6: rebranding preserves the stage id bit for bit, leaves every Info
field except Name and Repository unchanged, and is idempotent. -/
theorem convertStageDescription_preserves_and_idempotent
    (d : StageDescription) (t : Tier) :
    (convertStageDescriptionForStagesStorage d t).StageID = d.StageID ∧
    (convertStageDescriptionForStagesStorage d t).Info.Tag = d.Info.Tag ∧
    (convertStageDescriptionForStagesStorage d t).Info.RepoDigest = d.Info.RepoDigest ∧
    (convertStageDescriptionForStagesStorage d t).Info.ID = d.Info.ID ∧
    (convertStageDescriptionForStagesStorage d t).Info.ParentID = d.Info.ParentID ∧
    (convertStageDescriptionForStagesStorage d t).Info.Labels = d.Info.Labels ∧
    (convertStageDescriptionForStagesStorage d t).Info.Size = d.Info.Size ∧
    (convertStageDescriptionForStagesStorage d t).Info.CreatedAtUnixNano = d.Info.CreatedAtUnixNano ∧
    convertStageDescriptionForStagesStorage (convertStageDescriptionForStagesStorage d t) t
      = convertStageDescriptionForStagesStorage d t :=
  ⟨rfl, rfl, rfl, rfl, rfl, rfl, rfl, rfl, rfl⟩

/-- C7: the generator returns the first candidate: the unique id is the unix
seconds times 1000 plus the millisecond part, the image name is the primary
tier naming scheme at that unique id, and the result does not depend on the
supplied candidate descriptions at all. -/
theorem generateStageUniqueID_first_candidate
    (m : StorageManager) (digest : String) (stages stages2 : List StageDescription)
    (nowUnix : Int) (nowNanosecond : Nat) :
    (GenerateStageUniqueID m digest stages nowUnix nowNanosecond).2
        = nowUnix * 1000 + Int.ofNat (nowNanosecond / 1000000) ∧
    (GenerateStageUniqueID m digest stages nowUnix nowNanosecond).1
        = m.StagesStorage.ConstructStageImageName m.ProjectName digest
            (nowUnix * 1000 + Int.ofNat (nowNanosecond / 1000000)) ∧
    GenerateStageUniqueID m digest stages nowUnix nowNanosecond
        = GenerateStageUniqueID m digest stages2 nowUnix nowNanosecond :=
  ⟨rfl, rfl, rfl⟩

/-- C8: for every selection policy, SelectSuitableStage on an empty candidate
list returns absent with no error and never invokes the policy. -/
theorem selectSuitableStage_empty_candidates
    (policy : List StageDescription → Except GoErr (Option StageDescription)) :
    SelectSuitableStage policy [] = (.ok none, 0) :=
  rfl

/-- Appending to the empty effect log on the left is the identity. -/
theorem Effects.empty_append (e : Effects) : Effects.empty.append e = e := rfl

/-- A cache tier misses for a stage id: its manifest cache entry is absent
when the manifest cache is enabled, and its own description lookup returns
either absent or an error (both continue the loop in the source). -/
def cacheTierMisses (mc : ManifestCache) (projectName : String) (stageID : StageID)
    (opts : getStageDescriptionOptions) (c : Tier) : Prop :=
  (opts.WithLocalManifestCache = true →
    mc.GetImageInfo c.str (c.ConstructStageImageName projectName stageID.Digest stageID.UniqueID) = .ok none) ∧
  ((c.GetStageDescription projectName stageID.Digest stageID.UniqueID = .ok none) ∨
   (∃ e, c.GetStageDescription projectName stageID.Digest stageID.UniqueID = .error e))

/-- A missing cache tier makes the loop body continue with no effects. -/
theorem cacheTierStep_cont_of_misses (mc : ManifestCache) (projectName : String)
    (stageID : StageID) (target : Tier) (opts : getStageDescriptionOptions) (c : Tier)
    (h : cacheTierMisses mc projectName stageID opts c) :
    getStageDescriptionCacheTierStep mc projectName stageID target opts c = .cont Effects.empty := by
  obtain ⟨hmc, hdesc⟩ := h
  unfold getStageDescriptionCacheTierStep
  rcases hW : opts.WithLocalManifestCache with _ | _
  · simp only [hW, Bool.false_eq_true, if_false]
    rcases hdesc with hd | ⟨e, hd⟩ <;> simp [hd]
  · simp only [hW, if_true]
    rw [show getStageDescriptionFromLocalManifestCache mc projectName stageID c = .ok none by
      simp [getStageDescriptionFromLocalManifestCache, hmc hW]]
    rcases hdesc with hd | ⟨e, hd⟩ <;> simp [hd]

/-- When every cache tier misses, the loop falls through with no effects. -/
theorem cacheTiers_fallthrough_of_misses (mc : ManifestCache) (projectName : String)
    (stageID : StageID) (target : Tier) (opts : getStageDescriptionOptions) :
    ∀ tiers : List Tier, (∀ c ∈ tiers, cacheTierMisses mc projectName stageID opts c) →
      getStageDescriptionCacheTiers mc projectName stageID target opts tiers
        = Sum.inr Effects.empty := by
  intro tiers
  induction tiers with
  | nil => intro _; rfl
  | cons c rest ih =>
    intro h
    have hc := h c (List.mem_cons_self c rest)
    have hrest := ih (fun x hx => h x (List.mem_cons_of_mem _ hx))
    unfold getStageDescriptionCacheTiers
    rw [cacheTierStep_cont_of_misses mc projectName stageID target opts c hc, hrest]
    rfl

/-- When the resolver reaches the target tier (manifest cache miss for the
target, every cache tier misses), the resolver result is the target tier
part. -/
theorem getStageDescription_reaches_target (mc : ManifestCache) (projectName : String)
    (stageID : StageID) (target : Tier) (cacheTiers : List Tier)
    (opts : getStageDescriptionOptions)
    (hmc : opts.WithLocalManifestCache = true →
      mc.GetImageInfo target.str (target.ConstructStageImageName projectName stageID.Digest stageID.UniqueID) = .ok none)
    (htiers : ∀ c ∈ cacheTiers, cacheTierMisses mc projectName stageID opts c) :
    getStageDescription mc projectName stageID target cacheTiers opts
      = getStageDescriptionTargetTier mc projectName stageID target opts := by
  have hloop := cacheTiers_fallthrough_of_misses mc projectName stageID target opts cacheTiers htiers
  unfold getStageDescription
  rcases hW : opts.WithLocalManifestCache with _ | _
  · simp only [hW, Bool.false_eq_true, if_false, hloop]
    rw [Effects.empty_append]
  · simp only [hW, if_true]
    rw [show getStageDescriptionFromLocalManifestCache mc projectName stageID target = .ok none by
      simp [getStageDescriptionFromLocalManifestCache, hmc hW]]
    simp only [hloop]
    rw [Effects.empty_append]

/-- C3: when the lookup reaches the target tier itself and the tier reports
broken image, the resolver with the reset option rejects the stage on that
tier (and only that rejection happens) and returns the reset sentinel, while
without the reset option it returns absent with no error and performs no
rejection. -/
theorem getStageDescription_target_broken_image (mc : ManifestCache) (projectName : String)
    (stageID : StageID) (target : Tier) (cacheTiers : List Tier)
    (opts : getStageDescriptionOptions)
    (hmc : opts.WithLocalManifestCache = true →
      mc.GetImageInfo target.str (target.ConstructStageImageName projectName stageID.Digest stageID.UniqueID) = .ok none)
    (htiers : ∀ c ∈ cacheTiers, cacheTierMisses mc projectName stageID opts c)
    (hbroken : target.GetStageDescription projectName stageID.Digest stageID.UniqueID
      = .error .errBrokenImage) :
    (opts.AllowStagesStorageCacheReset = true →
      target.RejectStageErr projectName stageID.Digest stageID.UniqueID = none →
      getStageDescription mc projectName stageID target cacheTiers opts
        = (.error .errShouldReset, { Effects.empty with rejects := [(target.str, stageID)] })) ∧
    (opts.AllowStagesStorageCacheReset = false →
      getStageDescription mc projectName stageID target cacheTiers opts
        = (.ok none, Effects.empty)) := by
  have hreach := getStageDescription_reaches_target mc projectName stageID target cacheTiers opts hmc htiers
  constructor
  · intro hA hR
    rw [hreach]
    unfold getStageDescriptionTargetTier
    rw [hbroken]
    simp [hA, hR]
  · intro hA
    rw [hreach]
    unfold getStageDescriptionTargetTier
    rw [hbroken]
    simp [hA]

/-- A sample stage id used by the concrete instances below. -/
def sampleStageID : StageID := { Digest := "digest", UniqueID := 1 }

/-- A manifest cache with no entries whose stores always succeed. -/
def emptyManifestCache : ManifestCache :=
  { GetImageInfo := fun _ _ => .ok none
    StoreImageInfoErr := fun _ _ => none }

/-- A tier whose description lookup always reports broken image and whose
other operations succeed. -/
def brokenTier : Tier :=
  { Address := "repo"
    str := "repo"
    ConstructStageImageName := fun _ digest uniqueID => "repo:" ++ digest ++ "-" ++ toString uniqueID
    GetStageDescription := fun _ _ _ => .error .errBrokenImage
    RejectStageErr := fun _ _ _ => none
    ShouldFetchImage := fun _ => .ok true
    FetchImageErr := fun _ => none
    StoreImageErr := fun _ => none
    GetStagesIDs := fun _ => .ok []
    GetStagesIDsByDigest := fun _ _ => .ok [] }

/-- A cache tier that always misses. -/
def missTier : Tier :=
  { brokenTier with
    Address := "cache0"
    str := "cache0"
    GetStageDescription := fun _ _ _ => .ok none }

/-- Witness for C3 at a concrete input, in both reset option settings. -/
theorem getStageDescription_target_broken_image_witness :
    getStageDescription emptyManifestCache "project" sampleStageID brokenTier [missTier]
        { AllowStagesStorageCacheReset := true, WithLocalManifestCache := true }
      = (.error .errShouldReset, { Effects.empty with rejects := [("repo", sampleStageID)] }) ∧
    getStageDescription emptyManifestCache "project" sampleStageID brokenTier [missTier]
        { AllowStagesStorageCacheReset := false, WithLocalManifestCache := true }
      = (.ok none, Effects.empty) := by
  have hmiss : ∀ o, ∀ c ∈ [missTier], cacheTierMisses emptyManifestCache "project" sampleStageID o c := by
    intro o c hc
    have : c = missTier := by simpa using hc
    subst this
    exact ⟨fun _ => rfl, Or.inl rfl⟩
  constructor
  · exact (getStageDescription_target_broken_image emptyManifestCache "project" sampleStageID
      brokenTier [missTier] _ (fun _ => rfl) (hmiss _) rfl).1 rfl rfl
  · exact (getStageDescription_target_broken_image emptyManifestCache "project" sampleStageID
      brokenTier [missTier] _ (fun _ => rfl) (hmiss _) rfl).2 rfl

/-- Stage id equality is reflexive. -/
theorem StageID.IsEqual_refl (s : StageID) : s.IsEqual s = true := by
  simp [StageID.IsEqual]

/-- C5: when the final stages list cache is initialized and holds at most one
entry equal to the stage id, a successful CopyStageIntoFinalRepo call is
idempotent: the second sequential call for the same stage returns success
with no effects at all (in particular no rename and no store; it
short-circuits on the containment check) and leaves the state unchanged, and
after the first call the cached list holds exactly one entry equal to the
stage id. -/
theorem copyStageIntoFinalRepo_idempotent (env : WorldEnv) (m : StorageManager)
    (st0 : ManagerState) (stg : StageInput) (l0 : List StageID)
    (hl : st0.FinalStagesListCache = some l0)
    (hcount : l0.countP (fun s => s.IsEqual stg.desc.StageID) ≤ 1)
    (hok : (CopyStageIntoFinalRepo env m st0 stg).1 = .ok ()) :
    CopyStageIntoFinalRepo env m ((CopyStageIntoFinalRepo env m st0 stg).2.1) stg
      = (.ok (), (CopyStageIntoFinalRepo env m st0 stg).2.1, Effects.empty) ∧
    ∃ l1, ((CopyStageIntoFinalRepo env m st0 stg).2.1).FinalStagesListCache = some l1 ∧
      l1.countP (fun s => s.IsEqual stg.desc.StageID) = 1 := by
  have hget : getOrCreateFinalStagesListCache m st0 = (.ok l0, st0) := by
    unfold getOrCreateFinalStagesListCache; rw [hl]
  by_cases hany : l0.any (fun existingStg => existingStg.IsEqual stg.desc.StageID) = true
  · have hrun : CopyStageIntoFinalRepo env m st0 stg = (.ok (), st0, Effects.empty) := by
      unfold CopyStageIntoFinalRepo
      rw [hget]
      simp [hany]
    rw [hrun]
    constructor
    · unfold CopyStageIntoFinalRepo
      rw [hget]
      simp [hany]
    · refine ⟨l0, hl, le_antisymm hcount ?_⟩
      have hx : ∃ a ∈ l0, (fun s => s.IsEqual stg.desc.StageID) a := by
        obtain ⟨x, hx, hpx⟩ := List.any_eq_true.mp hany
        exact ⟨x, hx, hpx⟩
      exact Nat.succ_le_of_lt (List.countP_pos_iff.mpr hx)
  · have hany0 : l0.any (fun existingStg => existingStg.IsEqual stg.desc.StageID) = false :=
      Bool.eq_false_iff.mpr hany
    rcases hF : FetchStage env m stg with ⟨fr, feff⟩
    cases fr with
    | error e =>
      exfalso
      have hbad : (CopyStageIntoFinalRepo env m st0 stg).1
          = .error (.wrap "unable to fetch stage: " e) := by
        unfold CopyStageIntoFinalRepo
        rw [hget]
        simp [hany0, hF]
      rw [hbad] at hok
      exact absurd hok (by simp)
    | ok stgAfter =>
      rcases hC : copyStageIntoStagesStorage env m.ProjectName stg.desc.StageID stgAfter.imageName
          (some stgAfter.desc) m.FinalStagesStorage with ⟨copt, cname, ceff⟩
      cases copt with
      | some e =>
        exfalso
        have hbad : (CopyStageIntoFinalRepo env m st0 stg).1
            = .error (.wrap ("unable to copy stage " ++ stg.desc.StageID.str ++ " into the final repo " ++ m.FinalStagesStorage.str ++ ": ") e) := by
          unfold CopyStageIntoFinalRepo
          rw [hget]
          simp [hany0, hF, hC]
        rw [hbad] at hok
        exact absurd hok (by simp)
      | none =>
        have hadd : AddStageID l0 stg.desc.StageID = l0 ++ [stg.desc.StageID] := by
          unfold AddStageID; rw [hany0]; simp
        have hrun : CopyStageIntoFinalRepo env m st0 stg
            = (.ok (), { FinalStagesListCache := some (AddStageID l0 stg.desc.StageID) },
               feff.append ceff) := by
          unfold CopyStageIntoFinalRepo
          rw [hget]
          simp [hany0, hF, hC]
        rw [hrun]
        constructor
        · rw [hadd]
          unfold CopyStageIntoFinalRepo getOrCreateFinalStagesListCache
          simp [StageID.IsEqual_refl]
        · refine ⟨_, rfl, ?_⟩
          rw [hadd, List.countP_append]
          have h0 : l0.countP (fun s => s.IsEqual stg.desc.StageID) = 0 := by
            rw [List.countP_eq_zero]
            intro a ha
            exact (List.any_eq_false.mp hany0) a ha
          simp [h0, List.countP_cons, StageID.IsEqual_refl]

/-- An environment in which every collaborator call succeeds. -/
def allOkWorldEnv : WorldEnv :=
  { mc := emptyManifestCache
    RenameImageErr := fun _ _ => none
    RefreshImageObjectErr := fun _ => none
    AccessImageErr := fun _ => none
    AcquireHostLockErr := fun _ => none
    LockStageCacheErr := fun _ => none
    StoreStagesByDigestErr := fun _ _ => none }

/-- A primary tier whose image is already local (no fetch needed). -/
def presentPrimaryTier : Tier :=
  { brokenTier with
    Address := "primary"
    str := "primary"
    ConstructStageImageName := fun _ digest uniqueID => "primary:" ++ digest ++ "-" ++ toString uniqueID
    GetStageDescription := fun _ _ _ => .ok none
    ShouldFetchImage := fun _ => .ok false }

/-- A final tier accepting every store. -/
def finalTier : Tier :=
  { brokenTier with
    Address := "final"
    str := "final"
    ConstructStageImageName := fun _ digest uniqueID => "final:" ++ digest ++ "-" ++ toString uniqueID
    GetStageDescription := fun _ _ _ => .ok none }

/-- A sample Info for the sample stage. -/
def sampleInfo : Info :=
  { Name := "primary:digest-1"
    Repository := "primary"
    Tag := "digest-1"
    RepoDigest := ""
    ID := "id"
    ParentID := ""
    Labels := []
    Size := 0
    CreatedAtUnixNano := 0 }

/-- The sample stage input. -/
def sampleStage : StageInput :=
  { imageName := "primary:digest-1"
    desc := { StageID := sampleStageID, Info := sampleInfo } }

/-- A manager with the sample primary and final tiers and no cache tiers. -/
def finalRepoManager : StorageManager :=
  { ProjectName := "project"
    StagesStorage := presentPrimaryTier
    FinalStagesStorage := finalTier
    CacheStagesStorageList := [] }

/-- Witness for C5 at a concrete input: the first call succeeds through the
copy path, the second call short-circuits with no effects, and the cached
list holds the stage id exactly once. -/
theorem copyStageIntoFinalRepo_idempotent_witness :
    (CopyStageIntoFinalRepo allOkWorldEnv finalRepoManager { FinalStagesListCache := some [] } sampleStage).1 = .ok () ∧
    CopyStageIntoFinalRepo allOkWorldEnv finalRepoManager
        ((CopyStageIntoFinalRepo allOkWorldEnv finalRepoManager { FinalStagesListCache := some [] } sampleStage).2.1) sampleStage
      = (.ok (), (CopyStageIntoFinalRepo allOkWorldEnv finalRepoManager { FinalStagesListCache := some [] } sampleStage).2.1, Effects.empty) ∧
    ∃ l1, ((CopyStageIntoFinalRepo allOkWorldEnv finalRepoManager { FinalStagesListCache := some [] } sampleStage).2.1).FinalStagesListCache = some l1 ∧
      l1.countP (fun s => s.IsEqual sampleStage.desc.StageID) = 1 := by
  have h := copyStageIntoFinalRepo_idempotent allOkWorldEnv finalRepoManager
    { FinalStagesListCache := some [] } sampleStage [] rfl (by decide) (by rfl)
  exact ⟨by rfl, h.1, h.2⟩

/-- An effect log that contains no stages storage cache writes and no digest
locks (the resolver never touches the digest index). -/
def Effects.noIndexWrites (e : Effects) : Prop :=
  e.cacheWrites = [] ∧ e.digestLocks = []

/-- The empty log has no index writes. -/
theorem Effects.noIndexWrites_empty : Effects.noIndexWrites Effects.empty :=
  ⟨rfl, rfl⟩

/-- Appending preserves the absence of index writes. -/
theorem Effects.noIndexWrites_append {a b : Effects}
    (ha : a.noIndexWrites) (hb : b.noIndexWrites) : (a.append b).noIndexWrites := by
  obtain ⟨ha1, ha2⟩ := ha
  obtain ⟨hb1, hb2⟩ := hb
  exact ⟨by simp [Effects.append, ha1, hb1], by simp [Effects.append, ha2, hb2]⟩

/-- A manifest cache store produces no index writes. -/
theorem storeStageDescription_noIndexWrites (mc : ManifestCache) (projectName : String)
    (stageID : StageID) (ss : Tier) (d : StageDescription) :
    ((storeStageDescriptionIntoLocalManifestCache mc projectName stageID ss d).2).noIndexWrites := by
  unfold storeStageDescriptionIntoLocalManifestCache
  split <;> exact ⟨rfl, rfl⟩

/-- The effects carried by a cache tier loop step. -/
def CacheTierStep.eff : CacheTierStep → Effects
  | .ret _ e => e
  | .cont e => e

/-- A cache tier store branch produces no index writes, stated over the
destructured pair for direct use after a split. -/
theorem storeStageDescription_noIndexWrites_pair (mc : ManifestCache) (projectName : String)
    (stageID : StageID) (ss : Tier) (d : StageDescription) (o : Option GoErr) (eff : Effects)
    (heq : storeStageDescriptionIntoLocalManifestCache mc projectName stageID ss d = (o, eff)) :
    eff.noIndexWrites := by
  have h := storeStageDescription_noIndexWrites mc projectName stageID ss d
  rw [heq] at h
  exact h

/-- A cache tier loop step produces no index writes. -/
theorem cacheTierStep_noIndexWrites (mc : ManifestCache) (projectName : String)
    (stageID : StageID) (target : Tier) (opts : getStageDescriptionOptions) (c : Tier) :
    (getStageDescriptionCacheTierStep mc projectName stageID target opts c).eff.noIndexWrites := by
  unfold getStageDescriptionCacheTierStep
  rcases hW : opts.WithLocalManifestCache with _ | _
  · simp only [hW, Bool.false_eq_true, if_false]
    rcases hgd : c.GetStageDescription projectName stageID.Digest stageID.UniqueID with e | od
    · simp only [hgd]
      exact ⟨rfl, rfl⟩
    · rcases od with _ | d
      · simp only [hgd]
        exact ⟨rfl, rfl⟩
      · simp only [hgd, Bool.false_eq_true, if_false]
        exact ⟨rfl, rfl⟩
  · simp only [hW, if_true]
    rcases hmcr : getStageDescriptionFromLocalManifestCache mc projectName stageID c with e | od
    · simp only [hmcr]
      exact ⟨rfl, rfl⟩
    · rcases od with _ | d
      · simp only [hmcr]
        rcases hgd : c.GetStageDescription projectName stageID.Digest stageID.UniqueID with e | od2
        · simp only [hgd]
          exact ⟨rfl, rfl⟩
        · rcases od2 with _ | d2
          · simp only [hgd]
            exact ⟨rfl, rfl⟩
          · simp only [hgd, if_true]
            rcases hst : storeStageDescriptionIntoLocalManifestCache mc projectName stageID c d2 with ⟨o, eff⟩
            rcases o with _ | e2 <;> simp only [hst] <;>
              exact storeStageDescription_noIndexWrites_pair mc projectName stageID c d2 _ _ hst
      · simp only [hmcr]
        exact ⟨rfl, rfl⟩

/-- The effects of either outcome of the cache tier loop. -/
def cacheTiersEff (r : (Except GoErr (Option StageDescription) × Effects) ⊕ Effects) : Effects :=
  match r with
  | Sum.inl (_, e) => e
  | Sum.inr e => e

/-- The cache tier loop produces no index writes. -/
theorem cacheTiers_noIndexWrites (mc : ManifestCache) (projectName : String)
    (stageID : StageID) (target : Tier) (opts : getStageDescriptionOptions) :
    ∀ tiers : List Tier,
      (cacheTiersEff (getStageDescriptionCacheTiers mc projectName stageID target opts tiers)).noIndexWrites := by
  intro tiers
  induction tiers with
  | nil => exact ⟨rfl, rfl⟩
  | cons c rest ih =>
    unfold getStageDescriptionCacheTiers
    have hstep := cacheTierStep_noIndexWrites mc projectName stageID target opts c
    split <;> rename_i heq
    · rw [heq] at hstep
      exact hstep
    · rw [heq] at hstep
      split <;> rename_i heq2 <;> rw [heq2] at ih <;>
        exact Effects.noIndexWrites_append hstep ih

/-- The target tier part of the resolver produces no index writes. -/
theorem targetTier_noIndexWrites (mc : ManifestCache) (projectName : String)
    (stageID : StageID) (target : Tier) (opts : getStageDescriptionOptions) :
    ((getStageDescriptionTargetTier mc projectName stageID target opts).2).noIndexWrites := by
  unfold getStageDescriptionTargetTier
  rcases hgd : target.GetStageDescription projectName stageID.Digest stageID.UniqueID with e | od
  · rcases e with _ | _ | _ | ⟨pre, e2⟩ | msg
    · simp only [hgd]
      exact ⟨rfl, rfl⟩
    · simp only [hgd]
      exact ⟨rfl, rfl⟩
    · simp only [hgd]
      rcases hA : opts.AllowStagesStorageCacheReset with _ | _
      · simp only [hA, Bool.false_eq_true, if_false]
        exact ⟨rfl, rfl⟩
      · simp only [hA, if_true]
        rcases target.RejectStageErr projectName stageID.Digest stageID.UniqueID with _ | e3
        · exact ⟨rfl, rfl⟩
        · exact ⟨rfl, rfl⟩
    · simp only [hgd]
      exact ⟨rfl, rfl⟩
    · simp only [hgd]
      exact ⟨rfl, rfl⟩
  · rcases od with _ | d
    · simp only [hgd]
      rcases hA : opts.AllowStagesStorageCacheReset with _ | _ <;>
        simp only [hA, Bool.false_eq_true, if_false, if_true] <;> exact ⟨rfl, rfl⟩
    · simp only [hgd]
      rcases hW : opts.WithLocalManifestCache with _ | _
      · simp only [hW, Bool.false_eq_true, if_false]
        exact ⟨rfl, rfl⟩
      · simp only [hW, if_true]
        rcases hst : storeStageDescriptionIntoLocalManifestCache mc projectName stageID target d with ⟨o, eff⟩
        rcases o with _ | e2 <;> simp only [hst] <;>
          exact storeStageDescription_noIndexWrites_pair mc projectName stageID target d _ _ hst

/-- The resolver produces no index writes. -/
theorem getStageDescription_noIndexWrites (mc : ManifestCache) (projectName : String)
    (stageID : StageID) (target : Tier) (cacheTiers : List Tier)
    (opts : getStageDescriptionOptions) :
    ((getStageDescription mc projectName stageID target cacheTiers opts).2).noIndexWrites := by
  unfold getStageDescription
  have hloop := cacheTiers_noIndexWrites mc projectName stageID target opts cacheTiers
  have htarget := targetTier_noIndexWrites mc projectName stageID target opts
  have hafter : ∀ r : (Except GoErr (Option StageDescription) × Effects) ⊕ Effects,
      getStageDescriptionCacheTiers mc projectName stageID target opts cacheTiers = r →
      ((match r with
        | Sum.inl rr => rr
        | Sum.inr eff =>
          let (r2, eff2) := getStageDescriptionTargetTier mc projectName stageID target opts
          (r2, eff.append eff2)).2).noIndexWrites := by
    intro r hr
    rcases r with ⟨rr, eff⟩ | eff
    · rw [hr] at hloop
      exact hloop
    · rw [hr] at hloop
      exact Effects.noIndexWrites_append hloop htarget
  rcases hW : opts.WithLocalManifestCache with _ | _
  · simp only [hW, Bool.false_eq_true, if_false]
    exact hafter _ rfl
  · simp only [hW, if_true]
    rcases hmcr : getStageDescriptionFromLocalManifestCache mc projectName stageID target with e | od
    · simp only [hmcr]
      exact ⟨rfl, rfl⟩
    · rcases od with _ | d
      · simp only [hmcr]
        exact hafter _ rfl
      · simp only [hmcr]
        exact ⟨rfl, rfl⟩

/-- The per stage id resolution the digest refresh performs: the resolver
against the primary tier with the reset option disabled, as called by
getStagesDescriptions. -/
def resolveStageIDForCache (env : WorldEnv) (m : StorageManager) (stageID : StageID) :
    Except GoErr (Option StageDescription) :=
  (getStageDescription env.mc m.ProjectName stageID m.StagesStorage m.CacheStagesStorageList
    { AllowStagesStorageCacheReset := false, WithLocalManifestCache := m.getWithLocalManifestCacheOption }).1

/-- Resolving a list of stage ids produces no index writes. -/
theorem getStagesDescriptions_noIndexWrites (mc : ManifestCache) (m : StorageManager)
    (ss : Tier) (tiers : List Tier) :
    ∀ ids, ((getStagesDescriptions mc m ss tiers ids).2).noIndexWrites := by
  intro ids
  induction ids with
  | nil => exact ⟨rfl, rfl⟩
  | cons id rest ih =>
    unfold getStagesDescriptions
    have hone := getStageDescription_noIndexWrites mc m.ProjectName id ss tiers
      { AllowStagesStorageCacheReset := false, WithLocalManifestCache := m.getWithLocalManifestCacheOption }
    rcases hg : getStageDescription mc m.ProjectName id ss tiers
        { AllowStagesStorageCacheReset := false, WithLocalManifestCache := m.getWithLocalManifestCacheOption }
      with ⟨r, eff⟩
    rw [hg] at hone
    rcases hrec : getStagesDescriptions mc m ss tiers rest with ⟨rr, reff⟩
    rw [hrec] at ih
    rcases r with e | o
    · simp only [hg]
      exact hone
    · rcases o with _ | d
      · simp only [hg, hrec]
        exact Effects.noIndexWrites_append hone ih
      · simp only [hg, hrec]
        rcases rr with e2 | stages
        · exact Effects.noIndexWrites_append hone ih
        · exact Effects.noIndexWrites_append hone ih

/-- When every stage id of the list resolves without an error, the resolved
descriptions are exactly the filtered map of the per id resolution over the
list, in order. -/
theorem getStagesDescriptions_filterMap (env : WorldEnv) (m : StorageManager) :
    ∀ ids, (∀ id ∈ ids, ∃ o, resolveStageIDForCache env m id = .ok o) →
      (getStagesDescriptions env.mc m m.StagesStorage m.CacheStagesStorageList ids).1
        = .ok (ids.filterMap (fun id =>
            match resolveStageIDForCache env m id with
            | .ok (some d) => some d
            | _ => none)) := by
  intro ids
  induction ids with
  | nil => intro _; rfl
  | cons id rest ih =>
    intro h
    obtain ⟨o, ho⟩ := h id (List.mem_cons_self id rest)
    have hrest := ih (fun x hx => h x (List.mem_cons_of_mem _ hx))
    unfold resolveStageIDForCache at ho
    unfold getStagesDescriptions
    rcases hg : getStageDescription env.mc m.ProjectName id m.StagesStorage m.CacheStagesStorageList
        { AllowStagesStorageCacheReset := false, WithLocalManifestCache := m.getWithLocalManifestCacheOption }
      with ⟨r, eff⟩
    rw [hg] at ho
    have hr : r = .ok o := ho
    subst hr
    rcases hrec : getStagesDescriptions env.mc m m.StagesStorage m.CacheStagesStorageList rest
      with ⟨rr, reff⟩
    rw [hrec] at hrest
    have hrr : rr = .ok (rest.filterMap (fun id2 =>
        match resolveStageIDForCache env m id2 with
        | .ok (some d) => some d
        | _ => none)) := hrest
    subst hrr
    rcases o with _ | d
    · simp only [hg, hrec, List.filterMap_cons, resolveStageIDForCache, hg]
    · simp only [hg, hrec, List.filterMap_cons, resolveStageIDForCache, hg]

/-- C4: on an index cache miss, the refresh locks the digest, lists the stage
ids from the primary tier, resolves each id, and stores into the index cache
exactly the stage ids of the descriptions that resolved successfully; an id
whose resolution is absent appears neither in the stored set nor in the
returned list. Stated under a successful lock, listing and store, resolutions
that do not error, and backends that report descriptions under their own
stage id. -/
theorem atomicGetStagesByDigest_stores_resolved (env : WorldEnv) (m : StorageManager)
    (stageName stageDigest : String) (ids : List StageID)
    (hlock : env.LockStageCacheErr stageDigest = none)
    (hids : m.StagesStorage.GetStagesIDsByDigest m.ProjectName stageDigest = .ok ids)
    (hres : ∀ id ∈ ids, ∃ o, resolveStageIDForCache env m id = .ok o)
    (hstore : ∀ l, env.StoreStagesByDigestErr stageDigest l = none)
    (hwf : ∀ id ∈ ids, ∀ d, resolveStageIDForCache env m id = .ok (some d) → d.StageID = id) :
    (atomicGetStagesByDigestWithStagesStorageCacheStore env m stageName stageDigest).1
        = .ok (ids.filterMap (fun id =>
            match resolveStageIDForCache env m id with
            | .ok (some d) => some d
            | _ => none)) ∧
    (atomicGetStagesByDigestWithStagesStorageCacheStore env m stageName stageDigest).2.cacheWrites
        = [(stageDigest, (ids.filterMap (fun id =>
            match resolveStageIDForCache env m id with
            | .ok (some d) => some d
            | _ => none)).map (fun d => d.StageID))] ∧
    (atomicGetStagesByDigestWithStagesStorageCacheStore env m stageName stageDigest).2.digestLocks
        = [stageDigest] ∧
    (∀ id ∈ ids, resolveStageIDForCache env m id = .ok none →
      id ∉ (ids.filterMap (fun id2 =>
            match resolveStageIDForCache env m id2 with
            | .ok (some d) => some d
            | _ => none)).map (fun d => d.StageID)) := by
  have hids2 : getStagesIDsByDigestFromStagesStorage m stageDigest m.StagesStorage = .ok ids := by
    unfold getStagesIDsByDigestFromStagesStorage
    rw [hids]
  have hgd := getStagesDescriptions_filterMap env m ids hres
  have hnoidx := getStagesDescriptions_noIndexWrites env.mc m m.StagesStorage m.CacheStagesStorageList ids
  rcases hgds : getStagesDescriptions env.mc m m.StagesStorage m.CacheStagesStorageList ids
    with ⟨gr, geff⟩
  rw [hgds] at hgd hnoidx
  have hgr : gr = .ok (ids.filterMap (fun id =>
      match resolveStageIDForCache env m id with
      | .ok (some d) => some d
      | _ => none)) := hgd
  subst hgr
  have hrun : atomicGetStagesByDigestWithStagesStorageCacheStore env m stageName stageDigest
      = (.ok (ids.filterMap (fun id =>
            match resolveStageIDForCache env m id with
            | .ok (some d) => some d
            | _ => none)),
         ({ Effects.empty with digestLocks := [stageDigest] }.append geff).append
           { Effects.empty with cacheWrites := [(stageDigest,
              (ids.filterMap (fun id =>
                match resolveStageIDForCache env m id with
                | .ok (some d) => some d
                | _ => none)).map (fun stage : StageDescription => stage.StageID))] }) := by
    unfold atomicGetStagesByDigestWithStagesStorageCacheStore
    simp only [hlock, hids2, hgds, hstore]
  have h1 : geff.cacheWrites = [] := hnoidx.1
  have h2 : geff.digestLocks = [] := hnoidx.2
  refine ⟨?_, ?_, ?_, ?_⟩
  · rw [hrun]
  · rw [hrun]
    simp [Effects.append, Effects.empty, h1]
  · rw [hrun]
    simp [Effects.append, Effects.empty, h2]
  · intro id hid hnone hmem
    rw [List.mem_map] at hmem
    obtain ⟨d, hd, hds⟩ := hmem
    rw [List.mem_filterMap] at hd
    obtain ⟨id2, hid2, hf⟩ := hd
    have h2 : resolveStageIDForCache env m id2 = .ok (some d) := by
      rcases hr2 : resolveStageIDForCache env m id2 with e | o2
      · rw [hr2] at hf
        simp at hf
      · rcases o2 with _ | d2
        · rw [hr2] at hf
          simp at hf
        · rw [hr2] at hf
          simp at hf
          subst hf
          rfl
    have hsid := hwf id2 hid2 d h2
    rw [hsid] at hds
    rw [hds] at h2
    rw [h2] at hnone
    simp at hnone

/-- A local primary tier holding one valid stage at unique id 1 for every
digest and listing two candidate ids per digest, of which only the first
resolves. -/
def localPrimaryTier : Tier :=
  { brokenTier with
    Address := ":local"
    str := "local"
    ConstructStageImageName := fun _ digest uniqueID =>
      "werf-stages-storage/project:" ++ digest ++ "-" ++ toString uniqueID
    GetStageDescription := fun _ digest uniqueID =>
      if digest == "digest" && uniqueID == 1 then
        .ok (some { StageID := sampleStageID, Info := sampleInfo })
      else .ok none
    GetStagesIDsByDigest := fun _ digest =>
      .ok [{ Digest := digest, UniqueID := 1 }, { Digest := digest, UniqueID := 2 }] }

/-- A manager over the local primary tier with no cache tiers. -/
def cacheRefreshManager : StorageManager :=
  { ProjectName := "project"
    StagesStorage := localPrimaryTier
    FinalStagesStorage := finalTier
    CacheStagesStorageList := [] }

/-- Witness for C4 at a concrete input: of the two listed ids only the first
resolves; the refresh returns exactly that description, writes exactly that
stage id back into the index cache, and runs under the per digest lock. -/
theorem atomicGetStagesByDigest_stores_resolved_witness :
    (atomicGetStagesByDigestWithStagesStorageCacheStore allOkWorldEnv cacheRefreshManager "stage" "digest").1
        = .ok [{ StageID := sampleStageID, Info := sampleInfo }] ∧
    (atomicGetStagesByDigestWithStagesStorageCacheStore allOkWorldEnv cacheRefreshManager "stage" "digest").2.cacheWrites
        = [("digest", [sampleStageID])] ∧
    (atomicGetStagesByDigestWithStagesStorageCacheStore allOkWorldEnv cacheRefreshManager "stage" "digest").2.digestLocks
        = ["digest"] := by
  have hres : ∀ id ∈ [({ Digest := "digest", UniqueID := 1 } : StageID), { Digest := "digest", UniqueID := 2 }],
      ∃ o, resolveStageIDForCache allOkWorldEnv cacheRefreshManager id = .ok o := by
    intro id hid
    rcases List.mem_cons.mp hid with h1 | h1
    · subst h1
      exact ⟨some { StageID := sampleStageID, Info := sampleInfo }, rfl⟩
    · rcases List.mem_cons.mp h1 with h2 | h2
      · subst h2
        exact ⟨none, rfl⟩
      · cases h2
  have hwf : ∀ id ∈ [({ Digest := "digest", UniqueID := 1 } : StageID), { Digest := "digest", UniqueID := 2 }],
      ∀ d, resolveStageIDForCache allOkWorldEnv cacheRefreshManager id = .ok (some d) → d.StageID = id := by
    intro id hid d hd
    rcases List.mem_cons.mp hid with h1 | h1
    · subst h1
      have h0 : resolveStageIDForCache allOkWorldEnv cacheRefreshManager { Digest := "digest", UniqueID := 1 }
          = .ok (some { StageID := sampleStageID, Info := sampleInfo }) := rfl
      rw [h0] at hd
      simp at hd
      rw [← hd]
      rfl
    · rcases List.mem_cons.mp h1 with h2 | h2
      · subst h2
        have h0 : resolveStageIDForCache allOkWorldEnv cacheRefreshManager { Digest := "digest", UniqueID := 2 }
            = .ok none := rfl
        rw [h0] at hd
        cases hd
      · cases h2
  have h := atomicGetStagesByDigest_stores_resolved allOkWorldEnv cacheRefreshManager "stage" "digest"
    [{ Digest := "digest", UniqueID := 1 }, { Digest := "digest", UniqueID := 2 }]
    rfl rfl hres (fun _ => rfl) hwf
  exact ⟨h.1.trans (by rfl), h.2.1.trans (by rfl), h.2.2.1⟩

/-- A manager whose primary tier reports broken image on the description
lookup of the primary fetch, with no cache tiers configured. -/
def fetchPrimaryBrokenManager : StorageManager :=
  { ProjectName := "project"
    StagesStorage :=
      { brokenTier with
        Address := "primary"
        str := "primary"
        ConstructStageImageName := fun _ digest uniqueID => "primary:" ++ digest ++ "-" ++ toString uniqueID }
    FinalStagesStorage := finalTier
    CacheStagesStorageList := [] }

/-- A manager whose primary tier reports the stage as absent on the
description lookup of the primary fetch, with no cache tiers configured. -/
def fetchStageNotFoundManager : StorageManager :=
  { ProjectName := "project"
    StagesStorage :=
      { brokenTier with
        Address := "primary"
        str := "primary"
        ConstructStageImageName := fun _ digest uniqueID => "primary:" ++ digest ++ "-" ++ toString uniqueID
        GetStageDescription := fun _ _ _ => .ok none }
    FinalStagesStorage := finalTier
    CacheStagesStorageList := [] }

/-- The error FetchStage actually returns when the primary tier reports
broken image: doFetchStage wraps the broken image sentinel, so the identity
comparison in FetchStage never sees the sentinel itself. -/
def fetchBrokenResultErr : GoErr :=
  .wrap "unable to fetch stage digest-1 from stages storage primary: "
    (.wrap "unable to get stage description: " .errBrokenImage)

/-- C1 (code bug evidence): when the primary tier reports broken image during
the primary fetch, FetchStage does not reject the stage and does not return
the reset sentinel; it returns the doubly wrapped broken image error, which
does not even satisfy the suffix predicate for the reset sentinel. On
stage not found from the primary tier the translation does work: FetchStage
returns the reset sentinel without rejecting. -/
theorem fetchStage_primary_broken_image_not_translated :
    (FetchStage allOkWorldEnv fetchPrimaryBrokenManager sampleStage).1
        = .error fetchBrokenResultErr ∧
    (FetchStage allOkWorldEnv fetchPrimaryBrokenManager sampleStage).2.rejects = [] ∧
    ShouldResetStagesStorageCache (some fetchBrokenResultErr) = false ∧
    fetchBrokenResultErr ≠ .errShouldReset ∧
    (FetchStage allOkWorldEnv fetchStageNotFoundManager sampleStage).1 = .error .errShouldReset ∧
    (FetchStage allOkWorldEnv fetchStageNotFoundManager sampleStage).2.rejects = [] := by
  refine ⟨rfl, rfl, by decide, by decide, rfl, rfl⟩

/-- Membership and the boolean contains agree on string lists. -/
theorem contains_iff_mem {l : List String} {x : String} : l.contains x = true ↔ x ∈ l := by
  simp [List.contains, List.elem_iff]

/-- The source loop equals the claim wording dedup, relative to any already
collected result. -/
theorem appendUniqReleases_eq (l : List HelmRelease) :
    ∀ res, appendUniqReleases res l = res ++ dedupKeepFirst res l := by
  induction l with
  | nil => intro res; simp [appendUniqReleases, dedupKeepFirst]
  | cons rel rest ih =>
    intro res
    unfold appendUniqReleases dedupKeepFirst
    rcases hc : res.contains rel.Name with _ | _
    · simp only [Bool.false_eq_true, if_false]
      rw [ih]
      simp [List.append_assoc]
    · simp only [if_true]
      exact ih res

/-- Membership in the dedup: exactly the names of the walked releases that
are not among the already seen names. -/
theorem mem_dedupKeepFirst (x : String) :
    ∀ (l : List HelmRelease) (seen : List String),
      x ∈ dedupKeepFirst seen l ↔ (x ∈ l.map (fun r => r.Name) ∧ x ∉ seen) := by
  intro l
  induction l with
  | nil => intro seen; simp [dedupKeepFirst]
  | cons rel rest ih =>
    intro seen
    unfold dedupKeepFirst
    rcases hc : seen.contains rel.Name with _ | _
    · have hns : rel.Name ∉ seen := by
        intro h
        rw [contains_iff_mem.mpr h] at hc
        cases hc
      simp only [Bool.false_eq_true, if_false, List.mem_cons, ih, List.map_cons]
      constructor
      · rintro (rfl | ⟨h1, h2⟩)
        · exact ⟨Or.inl rfl, hns⟩
        · simp only [List.mem_append, List.mem_singleton, not_or] at h2
          exact ⟨Or.inr h1, h2.1⟩
      · rintro ⟨h1, h2⟩
        rcases h1 with rfl | h1
        · exact Or.inl rfl
        · by_cases hx : x = rel.Name
          · exact Or.inl hx
          · refine Or.inr ⟨h1, ?_⟩
            simp only [List.mem_append, List.mem_singleton, not_or]
            exact ⟨h2, hx⟩
    · have hs : rel.Name ∈ seen := contains_iff_mem.mp hc
      simp only [if_true, ih, List.map_cons, List.mem_cons]
      constructor
      · rintro ⟨h1, h2⟩
        exact ⟨Or.inr h1, h2⟩
      · rintro ⟨h1, h2⟩
        rcases h1 with rfl | h1
        · exact absurd hs h2
        · exact ⟨h1, h2⟩

/-- The dedup never repeats a name. -/
theorem nodup_dedupKeepFirst :
    ∀ (l : List HelmRelease) (seen : List String), (dedupKeepFirst seen l).Nodup := by
  intro l
  induction l with
  | nil => intro seen; simp [dedupKeepFirst]
  | cons rel rest ih =>
    intro seen
    unfold dedupKeepFirst
    rcases hc : seen.contains rel.Name with _ | _
    · simp only [Bool.false_eq_true, if_false]
      rw [List.nodup_cons]
      refine ⟨?_, ih _⟩
      intro hmem
      rw [mem_dedupKeepFirst] at hmem
      exact hmem.2 (by simp)
    · simp only [if_true]
      exact ih _

/-- C9: both release listings return the names deduplicated by first
occurrence: the result equals the claim wording dedup, it has no duplicates,
it holds exactly the names present in the storage, and every present name
appears exactly once. -/
theorem getHelmReleasesList_unique_names (s : Helm2Storage) (hacc : s.accessErr = none) :
    GetHelm2ReleasesList s = .ok (dedupKeepFirst [] s.records) ∧
    (∀ rs : List HelmRelease, GetHelm3ReleasesList (.ok rs) = .ok (dedupKeepFirst [] rs)) ∧
    (∀ rs : List HelmRelease, (dedupKeepFirst [] rs).Nodup) ∧
    (∀ (rs : List HelmRelease) (x : String),
      x ∈ dedupKeepFirst [] rs ↔ x ∈ rs.map (fun r => r.Name)) ∧
    (∀ rs : List HelmRelease, ∀ x ∈ rs.map (fun r => r.Name),
      (dedupKeepFirst [] rs).count x = 1) := by
  have hbridge : ∀ rs : List HelmRelease, appendUniqReleases [] rs = dedupKeepFirst [] rs := by
    intro rs
    simpa using appendUniqReleases_eq rs []
  have hmem : ∀ (rs : List HelmRelease) (x : String),
      x ∈ dedupKeepFirst [] rs ↔ x ∈ rs.map (fun r => r.Name) := by
    intro rs x
    rw [mem_dedupKeepFirst]
    simp
  refine ⟨?_, ?_, fun rs => nodup_dedupKeepFirst rs [], hmem, ?_⟩
  · unfold GetHelm2ReleasesList Helm2Storage.ListReleases
    rw [hacc]
    simp [hbridge]
  · intro rs
    unfold GetHelm3ReleasesList
    simp [hbridge]
  · intro rs x hx
    exact List.count_eq_one_of_mem (nodup_dedupKeepFirst rs []) ((hmem rs x).mpr hx)

/-- A helm 2 storage with a duplicate name, for the C9 witness. -/
def helm2SampleStorage : Helm2Storage :=
  { records := [{ Name := "a", Version := 1 }, { Name := "b", Version := 1 }, { Name := "a", Version := 2 }]
    accessErr := none }

/-- Witness for C9 at a concrete input: the duplicate name a appears once,
in order of first occurrence. -/
theorem getHelmReleasesList_unique_names_witness :
    GetHelm2ReleasesList helm2SampleStorage = .ok ["a", "b"] ∧
    GetHelm3ReleasesList (.ok helm2SampleStorage.records) = .ok ["a", "b"] := by
  have h := getHelmReleasesList_unique_names helm2SampleStorage rfl
  exact ⟨h.1.trans (by rfl), (h.2.1 helm2SampleStorage.records).trans (by rfl)⟩

/-- Inserting never yields the empty list. -/
theorem insertByRevisionDesc_ne_nil (r : HelmRelease) (l : List HelmRelease) :
    insertByRevisionDesc r l ≠ [] := by
  cases l with
  | nil => simp [insertByRevisionDesc]
  | cons x xs =>
    unfold insertByRevisionDesc
    split <;> simp

/-- The sort of a non empty list is non empty. -/
theorem sortByRevisionDesc_eq_nil {l : List HelmRelease}
    (h : sortByRevisionDesc l = []) : l = [] := by
  cases l with
  | nil => rfl
  | cons a l2 =>
    exfalso
    unfold sortByRevisionDesc at h
    exact insertByRevisionDesc_ne_nil a _ h

/-- The head of the revision descending sort is a member of the list and its
revision bounds every member revision. -/
theorem sortByRevisionDesc_head_max :
    ∀ (l : List HelmRelease) (r : HelmRelease) (t : List HelmRelease),
      sortByRevisionDesc l = r :: t → r ∈ l ∧ ∀ x ∈ l, x.Version ≤ r.Version := by
  intro l
  induction l with
  | nil => intro r t h; cases h
  | cons a l2 ih =>
    intro r t h
    unfold sortByRevisionDesc at h
    rcases hs : sortByRevisionDesc l2 with _ | ⟨s, t2⟩
    · rw [hs] at h
      have hl2 : l2 = [] := sortByRevisionDesc_eq_nil hs
      subst hl2
      unfold insertByRevisionDesc at h
      injection h with h1 h2
      subst h1
      refine ⟨List.mem_cons_self _ _, ?_⟩
      intro x hx
      rcases List.mem_cons.mp hx with rfl | hx2
      · exact le_refl _
      · cases hx2
    · rw [hs] at h
      obtain ⟨hmem, hmax⟩ := ih s t2 hs
      unfold insertByRevisionDesc at h
      by_cases hcmp : s.Version ≤ a.Version
      · rw [if_pos hcmp] at h
        injection h with h1 h2
        subst h1
        refine ⟨List.mem_cons_self _ _, ?_⟩
        intro x hx
        rcases List.mem_cons.mp hx with rfl | hx2
        · exact le_refl _
        · exact le_trans (hmax x hx2) hcmp
      · rw [if_neg hcmp] at h
        injection h with h1 h2
        subst h1
        refine ⟨List.mem_cons_of_mem _ hmem, ?_⟩
        intro x hx
        rcases List.mem_cons.mp hx with rfl | hx2
        · exact le_of_not_le hcmp
        · exact hmax x hx2

/-- C10: with reachable storage, GetHelm2ReleaseData returns the release not
found error exactly when no stored record carries the requested name;
otherwise it returns a stored record with that name whose revision bounds the
revision of every stored record with that name. -/
theorem getHelm2ReleaseData_highest_revision (s : Helm2Storage) (releaseName : String)
    (hacc : s.accessErr = none) :
    ((∀ rel ∈ s.records, rel.Name ≠ releaseName) →
      GetHelm2ReleaseData s releaseName = .error (.mk "release not found")) ∧
    ((∃ rel ∈ s.records, rel.Name = releaseName) →
      ∃ r, GetHelm2ReleaseData s releaseName = .ok r) ∧
    (∀ r, GetHelm2ReleaseData s releaseName = .ok r →
      r ∈ s.records ∧ r.Name = releaseName ∧
      ∀ rel ∈ s.records, rel.Name = releaseName → rel.Version ≤ r.Version) := by
  have hlist : s.ListFilterAll (fun rel => rel.Name == releaseName)
      = .ok (s.records.filter (fun rel => rel.Name == releaseName)) := by
    unfold Helm2Storage.ListFilterAll
    rw [hacc]
  refine ⟨?_, ?_, ?_⟩
  · intro hnone
    have hfl : s.records.filter (fun rel => rel.Name == releaseName) = [] := by
      rw [List.filter_eq_nil_iff]
      intro rel hrel
      simp [hnone rel hrel]
    unfold GetHelm2ReleaseData
    rw [hlist, hfl]
    rfl
  · intro hsome
    obtain ⟨rel, hrel, hname⟩ := hsome
    have hmemf : rel ∈ s.records.filter (fun r2 => r2.Name == releaseName) := by
      rw [List.mem_filter]
      exact ⟨hrel, by simp [hname]⟩
    unfold GetHelm2ReleaseData
    rw [hlist]
    rcases hfl : s.records.filter (fun r2 => r2.Name == releaseName) with _ | ⟨f, fs⟩
    · rw [hfl] at hmemf
      cases hmemf
    · rw [hfl]
      rcases hsrt : sortByRevisionDesc (f :: fs) with _ | ⟨r, t⟩
      · exact absurd (sortByRevisionDesc_eq_nil hsrt) (by simp)
      · exact ⟨r, by simp [hsrt]⟩
  · intro r hok
    unfold GetHelm2ReleaseData at hok
    rw [hlist] at hok
    rcases hfl : s.records.filter (fun r2 => r2.Name == releaseName) with _ | ⟨f, fs⟩
    · rw [hfl] at hok
      simp at hok
    · rw [hfl] at hok
      rcases hsrt : sortByRevisionDesc (f :: fs) with _ | ⟨r2, t⟩
      · exact absurd (sortByRevisionDesc_eq_nil hsrt) (by simp)
      · simp [hsrt] at hok
        subst hok
        obtain ⟨hmem, hmax⟩ := sortByRevisionDesc_head_max (f :: fs) r2 t hsrt
        rw [← hfl] at hmem
        rw [List.mem_filter] at hmem
        refine ⟨hmem.1, by simpa using hmem.2, ?_⟩
        intro rel hrel hname
        have hrelf : rel ∈ s.records.filter (fun r2 => r2.Name == releaseName) := by
          rw [List.mem_filter]
          exact ⟨hrel, by simp [hname]⟩
        rw [hfl] at hrelf
        exact hmax rel hrelf

/-- A helm 2 storage with three revisions of release r, for the C10 witness. -/
def helm2RevisionStorage : Helm2Storage :=
  { records := [{ Name := "r", Version := 1 }, { Name := "r", Version := 3 },
                { Name := "x", Version := 5 }, { Name := "r", Version := 2 }]
    accessErr := none }

/-- Witness for C10 at a concrete input: the highest revision of r is
returned, an unknown name is the release not found error, and the returned
revision bounds every matching revision. -/
theorem getHelm2ReleaseData_highest_revision_witness :
    GetHelm2ReleaseData helm2RevisionStorage "r" = .ok { Name := "r", Version := 3 } ∧
    GetHelm2ReleaseData helm2RevisionStorage "zzz" = .error (.mk "release not found") ∧
    ({ Name := "r", Version := 3 } : HelmRelease) ∈ helm2RevisionStorage.records ∧
    (∀ rel ∈ helm2RevisionStorage.records, rel.Name = "r" →
      rel.Version ≤ ({ Name := "r", Version := 3 } : HelmRelease).Version) := by
  have h := getHelm2ReleaseData_highest_revision helm2RevisionStorage "r" rfl
  have h2 := getHelm2ReleaseData_highest_revision helm2RevisionStorage "zzz" rfl
  have hok : GetHelm2ReleaseData helm2RevisionStorage "r" = .ok { Name := "r", Version := 3 } := by rfl
  have hcar := h.2.2 { Name := "r", Version := 3 } hok
  refine ⟨hok, h2.1 (by decide), hcar.1, ?_⟩
  intro rel hrel hname
  exact hcar.2.2 rel hrel hname
